import Mathlib

/-!
Verification of the fluent combinator library

A shallow embedding, in Lean 4, of the core data structures and combinators of
the fluent library: the persistent `Path` chain, the `What`/`AsyncWhat`
combinators (`if`, `else`, `each`), the `Each.match` zip, the deep structural
equality `Each.equal`, and the asynchronous resilience combinators
(`AsyncWhat.within`, `AsyncWhat.retry`).

JavaScript absence (`undefined`) is modelled by `Option`; a synchronous
evaluation that may throw is `Except JsError (Option V)`; an asynchronous
settlement is `Except (Option JsError) (Option V)` (a rejection reason may
itself be `undefined`, since the code can `throw undefined`).  Errors are
modelled by their observable fields: class name (`constructor.name`, used by
`Errors.matches`), message, the `millis` slot of `TimeoutError`, and
`statusCode`.
-/

namespace Fluent

/-- A JavaScript value stored in an error field: either a string or a number.
(`TimeoutError.millis` receives a string at one call site, so the field must
be able to hold both.) -/
inductive EField where
  | str (s : String)
  | num (n : Nat)
deriving DecidableEq

/-- Observable content of a JavaScript `Error` object: the class name
(`constructor.name`), the `message`, and the optional `millis` and
`statusCode` fields consulted by `Errors.matches` and `TimeoutError`. -/
structure JsError where
  name : String
  message : String
  millis : Option EField := none
  statusCode : Option Nat := none
deriving DecidableEq

/-- Model of `new Error(msg)`: class name is "Error". -/
def plainError (msg : String) : JsError :=
  { name := "Error", message := msg }

/-- Model of `new TimeoutError(millis, message = "Operation timed out", cause)` from
`Errors.js`: stores the first argument in `this.millis`, the message (or its
default) in `this.message`, and sets `this.name = this.constructor.name`,
i.e. "TimeoutError". -/
def mkTimeoutError (millis : EField) (message : String := "Operation timed out") : JsError :=
  { name := "TimeoutError", message := message, millis := some millis }

/-!
Section: Path (src/main/util/Path.js)

`Path` is a persistent backward-linked chain: `constructor(prev, last)` sets
`_length = prev ? prev._length + 1 : (last !== undefined ? 1 : 0)`.
-/

/-- A `Path` node, holding exactly the constructor arguments
`(prev, last)` of `Path.js`; `length` is computed below the way the
constructor computes `_length`. -/
inductive Path (α : Type) where
  | node (prev : Option (Path α)) (last : Option α)

namespace Path

variable {α : Type}

/-- Structural equality test on paths (the derived handler does not support
this nested inductive, so it is written out). -/
def pbeq [DecidableEq α] : Path α → Path α → Bool
  | .node none l1, .node none l2 => l1 == l2
  | .node (some q1) l1, .node (some q2) l2 => pbeq q1 q2 && l1 == l2
  | _, _ => false

theorem pbeq_iff [DecidableEq α] : ∀ p q : Path α, pbeq p q = true ↔ p = q
  | .node none l1, .node none l2 => by simp [pbeq]
  | .node (some q1) l1, .node (some q2) l2 => by
    simp [pbeq, pbeq_iff q1 q2]
  | .node none _, .node (some _) _ => by simp [pbeq]
  | .node (some _) _, .node none _ => by simp [pbeq]

instance [DecidableEq α] : DecidableEq (Path α) :=
  fun p q => decidable_of_iff _ (pbeq_iff p q)

/-- The `prev` getter. -/
def prev : Path α → Option (Path α)
  | .node p _ => p

/-- The `last` getter. -/
def last : Path α → Option α
  | .node _ l => l

/-- The `_length` field as computed by the constructor:
`prev ? prev._length + 1 : (undefined !== last ? 1 : 0)`. -/
def length : Path α → Nat
  | .node (some p) _ => p.length + 1
  | .node none l => if l.isSome then 1 else 0

/-- Model of `new Path()`: the empty path. -/
def empty : Path α := .node none none

/-- Model of `add(item)`: `new Path(0 < this.length ? this : undefined, item)`. -/
def add (p : Path α) (item : Option α) : Path α :=
  .node (if 0 < p.length then some p else none) item

/-- Model of `along(items)`: repeated `add`. -/
def along (p : Path α) (items : List (Option α)) : Path α :=
  items.foldl add p

/-- Model of `Path.of(...steps)`: `new Path().along(steps)`. -/
def of (steps : List (Option α)) : Path α :=
  empty.along steps

/-- Model of `across(steps)`: one `add` per step, yielding the child paths lazily;
here materialised as the list of children in iteration order. -/
def across (p : Path α) (steps : List (Option α)) : List (Path α) :=
  steps.map p.add

/-- The loop body of `toArray(n)`: reads `current.last` into slot `n-1`,
then moves to `current.prev`.  Walking past the root (reading `prev` of a
root while steps remain) is a TypeError in JavaScript, modelled by `none`. -/
def toArrayGo : Path α → Nat → Option (List (Option α))
  | _, 0 => some []
  | p, 1 => some [p.last]
  | p, n + 2 =>
    match p.prev with
    | some q => (toArrayGo q (n + 1)).map (fun l => l ++ [p.last])
    | none => none

/-- Model of `toArray()` with the default arguments `n = this.length`, `f = id`. -/
def toArray (p : Path α) : Option (List (Option α)) :=
  toArrayGo p p.length

/-- The forward list of steps stored along the chain (a total spine
reconstruction, used to express predicates such as "no repeated value"). -/
def steps : Path α → List (Option α)
  | .node (some q) l => steps q ++ [l]
  | .node none (some x) => [some x]
  | .node none none => []

theorem length_add_some (p : Path α) (x : α) : (p.add (some x)).length = p.length + 1 := by
  unfold add
  by_cases h : 0 < p.length
  · simp [h, length]
  · simp [h, length]
    omega

theorem length_eq_zero_iff (p : Path α) : p.length = 0 ↔ p = empty := by
  constructor
  · intro h
    match p with
    | .node (some q) l => simp [length] at h
    | .node none (some x) => simp [length] at h
    | .node none none => rfl
  · intro h
    subst h
    rfl

theorem of_map_some_length (items : List α) : (of (items.map some)).length = items.length := by
  induction items using List.reverseRecOn with
  | nil => rfl
  | append_singleton l x ih =>
    have : of ((l ++ [x]).map some) = (of (l.map some)).add (some x) := by
      simp [of, along, List.foldl_append]
    rw [this, length_add_some, ih]
    simp

end Path

/-- Claim C7 counterexample: appending to the empty chain does not share the
empty chain as parent; the new node is a root (`prev` is `undefined`). -/
theorem add_on_empty_has_no_parent :
    ((Path.empty : Path Nat).add (some 5)).prev = none ∧
    ((Path.empty : Path Nat).add (some 5)).prev ≠ some (Path.empty : Path Nat) := by
  constructor
  · rfl
  · decide

/-- Claim C7 (amended): every `Path` node satisfies
`length = parent.length + 1` when a parent exists and `length ∈ {0, 1}`
otherwise; `p.add(x)` with a defined item returns a chain of length
`p.length + 1`, sharing `p` as parent when `p` is nonempty and producing a
new root when `p` is empty (so `p` itself is never modified: the new node
only references it). -/
theorem path_invariant_and_add (α : Type) :
    (∀ p : Path α, (∀ q, p.prev = some q → p.length = q.length + 1) ∧
      (p.prev = none → p.length = 0 ∨ p.length = 1)) ∧
    (∀ (p : Path α) (x : α), (p.add (some x)).length = p.length + 1) ∧
    (∀ (p : Path α) (x : α), 0 < p.length → (p.add (some x)).prev = some p) ∧
    (∀ (p : Path α) (x : α), p.length = 0 → (p.add (some x)).prev = none) := by
  refine ⟨?_, ?_, ?_, ?_⟩
  · rintro ⟨pr, l⟩
    constructor
    · intro q hq
      cases pr with
      | none => simp [Path.prev] at hq
      | some q0 =>
        simp [Path.prev] at hq
        subst hq
        simp [Path.length]
    · intro hq
      cases pr with
      | none => cases l <;> simp [Path.length]
      | some q0 => simp [Path.prev] at hq
  · exact fun p x => Path.length_add_some p x
  · intro p x h
    simp [Path.add, h, Path.prev]
  · intro p x h
    have : ¬ 0 < p.length := by omega
    simp [Path.add, this, Path.prev]

/-- Claim C7 witness: concrete nonempty chain, parent shared on `add`. -/
theorem path_invariant_and_add_witness :
    0 < (Path.of [some 1] : Path Nat).length ∧
    ((Path.of [some 1] : Path Nat).add (some 2)).prev = some (Path.of [some 1]) :=
  ⟨by decide, (path_invariant_and_add Nat).2.2.1 _ 2 (by decide)⟩

/-- Computation rule for `toArrayGo` at a node with a parent. -/
theorem toArrayGo_node_some {α : Type} (q : Path α) (l : Option α) (n : Nat) :
    Path.toArrayGo (Path.node (some q) l) (n + 2)
      = (Path.toArrayGo q (n + 1)).map (fun s => s ++ [l]) := rfl

/-- Claim C10: building a chain with `Path.of(...items)` from defined items
and reading it back with `toArray()` (default arguments) returns exactly the
original items in forward order, although the chain links backward only. -/
theorem toArray_of_roundtrip {α : Type} (items : List α) :
    (Path.of (items.map some)).toArray = some (items.map some) := by
  induction items using List.reverseRecOn with
  | nil => rfl
  | append_singleton l x ih =>
    have hof : Path.of ((l ++ [x]).map some) = (Path.of (l.map some)).add (some x) := by
      simp [Path.of, Path.along, List.foldl_append]
    rw [hof]
    rcases l with _ | ⟨a, l0⟩
    · rfl
    · have hlen : (Path.of ((a :: l0).map some)).length = l0.length + 1 := by
        rw [Path.of_map_some_length]
        exact rfl
      have hpos : 0 < (Path.of ((a :: l0).map some)).length := by omega
      have hadd : (Path.of ((a :: l0).map some)).add (some x) =
          Path.node (some (Path.of ((a :: l0).map some))) (some x) := by
        unfold Path.add
        rw [if_pos hpos]
      rw [hadd]
      unfold Path.toArray
      have hlen2 : (Path.node (some (Path.of ((a :: l0).map some))) (some x)).length
          = l0.length + 2 := by
        show (Path.of ((a :: l0).map some)).length + 1 = l0.length + 2
        rw [hlen]
      rw [hlen2, toArrayGo_node_some]
      have hgo : Path.toArrayGo (Path.of ((a :: l0).map some)) (l0.length + 1)
          = some ((a :: l0).map some) := by
        have h0 := ih
        unfold Path.toArray at h0
        rwa [hlen] at h0
      rw [hgo]
      simp

/-!
Section: Combinatorial expansion: static `What.each` over `Path.across`

`What.each(...ff)` (What.js) maps a path `p` to the empty sequence when
`p.length > ff.length`, and otherwise to
`p.across(Each.as(What.as(ff[p.length - 1])(p.last)).which()).which()`:
the factor function at index `p.length - 1` is applied to `p.last`, the
produced values are filtered to the defined ones, and one child path per
value is created.  The trailing `.which()` on the child paths keeps every
path (a path object is never `undefined`).  For an empty path the factor
lookup `ff[-1]` is `undefined` and `What.as(undefined)(...)` evaluates to
`undefined`, which `Each.as` turns into the empty sequence.
-/

/-- A factor function as consumed by `What.each`: from the last step of a
chain to the sequence of candidate next steps (possibly `undefined`). -/
abbrev Factor (α : Type) := Option α → List (Option α)

/-- One expansion step of `What.each(...ff)` applied to a path. -/
def whatEach {α : Type} (ff : List (Factor α)) (p : Path α) : List (Path α) :=
  if ff.length < p.length then []
  else
    match p.length with
    | 0 => []
    | m + 1 =>
      match ff.get? m with
      | some f => p.across ((f p.last).filter (fun v => v.isSome))
      | none => []

/-- Driving the expansion: all chains reachable from `p` in `n` steps
(the external traversal of the search space, run to depth `n`). -/
def reach {α : Type} (ff : List (Factor α)) : Nat → Path α → List (Path α)
  | 0, p => [p]
  | n + 1, p => (whatEach ff p).flatMap (reach ff n)

/-- Driving the expansion with a restricting predicate composed onto each
step (`.which(pred)` on the produced children): rejected children are never
expanded further. -/
def reachR {α : Type} (ff : List (Factor α)) (pred : Path α → Bool) :
    Nat → Path α → List (Path α)
  | 0, p => [p]
  | n + 1, p => ((whatEach ff p).filter pred).flatMap (reachR ff pred n)

/-- A restricting predicate is hereditary when it can only accept an
extended chain if it accepts the chain it extends. -/
def Hereditary {α : Type} (pred : Path α → Bool) : Prop :=
  ∀ (q : Path α) (v : Option α), pred (q.add v) = true → pred q = true

theorem mem_whatEach {α : Type} {ff : List (Factor α)} {p c : Path α}
    (h : c ∈ whatEach ff p) : ∃ v, c = p.add v := by
  unfold whatEach at h
  split at h
  · simp at h
  · split at h
    · simp at h
    · split at h
      · unfold Path.across at h
        rcases List.mem_map.mp h with ⟨v, _, hv⟩
        exact ⟨v, hv.symm⟩
      · simp at h

theorem reach_pred_up {α : Type} {ff : List (Factor α)} {pred : Path α → Bool}
    (hh : Hereditary pred) :
    ∀ (n : Nat) (p q : Path α), q ∈ reach ff n p → pred q = true → pred p = true := by
  intro n
  induction n with
  | zero =>
    intro p q hq hpredq
    simp [reach] at hq
    subst hq
    exact hpredq
  | succ n ihn =>
    intro p q hq hpredq
    rw [reach] at hq
    rcases List.mem_flatMap.mp hq with ⟨c, hc, hqc⟩
    have hpc := ihn c q hqc hpredq
    rcases mem_whatEach hc with ⟨v, hv⟩
    subst hv
    exact hh p v hpc

theorem flatMap_congr_mem {α β : Type} :
    ∀ (l : List α) (f g : α → List β), (∀ c ∈ l, f c = g c) → l.flatMap f = l.flatMap g := by
  intro l f g h
  induction l with
  | nil => rfl
  | cons c cs ih =>
    rw [List.flatMap_cons, List.flatMap_cons, h c (by simp),
      ih (fun x hx => h x (by simp [hx]))]

theorem filter_flatMap_eq_flatMap {α β : Type} (pred : α → Bool) (g : α → List β) :
    ∀ (l : List α), (∀ c ∈ l, pred c = false → g c = []) →
      (l.filter pred).flatMap g = l.flatMap g := by
  intro l
  induction l with
  | nil => simp
  | cons c cs ih =>
    intro h
    have htail : ∀ x ∈ cs, pred x = false → g x = [] := fun x hx => h x (by simp [hx])
    rw [List.filter_cons]
    by_cases hc : pred c = true
    · simp only [hc, if_pos]
      rw [List.flatMap_cons, List.flatMap_cons, ih htail]
    · have hcf : pred c = false := by simp at hc; exact hc
      simp only [hcf, Bool.false_eq_true, if_false]
      rw [List.flatMap_cons, h c (by simp) hcf, ih htail]
      simp

theorem filter_of_flatMap {α β : Type} (l : List α) (g : α → List β) (pred : β → Bool) :
    (l.flatMap g).filter pred = l.flatMap (fun c => (g c).filter pred) := by
  induction l with
  | nil => rfl
  | cons c cs ih => rw [List.flatMap_cons, List.flatMap_cons, List.filter_append, ih]

/-- Claim C1 (amended): for every finite family of factor functions and
every hereditary restricting predicate that accepts the root, driving the
per-step expansion (`What.each` over `Path` extension) with the predicate
applied at the step level produces the same final set of chains, at every
depth, as driving the unrestricted expansion and filtering the flattened
result afterwards.  (Without heredity the two sides differ; see the
counterexample.) -/
theorem each_early_eq_late_filter {α : Type} (ff : List (Factor α)) (pred : Path α → Bool)
    (hh : Hereditary pred) (r : Path α) (hr : pred r = true) :
    ∀ n, reachR ff pred n r = (reach ff n r).filter pred := by
  intro n
  induction n generalizing r with
  | zero => simp [reach, reachR, List.filter, hr]
  | succ n ihn =>
    rw [reach, reachR, filter_of_flatMap]
    have hchild : ∀ c ∈ (whatEach ff r).filter pred,
        reachR ff pred n c = (reach ff n c).filter pred := by
      intro c hc
      exact ihn c (List.mem_filter.mp hc).2
    rw [flatMap_congr_mem _ _ _ hchild]
    apply filter_flatMap_eq_flatMap
    intro c _ hcf
    apply List.filter_eq_nil_iff.mpr
    intro q hq
    intro hpq
    have := reach_pred_up hh n c q hq hpq
    rw [this] at hcf
    cases hcf

/-- The concrete two-step binary factor family `[0,1] x [0,1]`: driven from a
root holding one value, it enumerates exactly the length-3 chains over
`{0,1} x {0,1} x {0,1}` that start with that value. -/
def binFactors : List (Factor Nat) :=
  [fun _ => [some 0, some 1], fun _ => [some 0, some 1]]

/-- A non-hereditary restricting predicate: "the chain currently ends in 1". -/
def lastOne : Path Nat → Bool := fun p => p.last == some 1

/-- The root chain holding the single value 0. -/
def root0 : Path Nat := Path.of [some 0]

/-- Claim C1 counterexample: for the factors `[0,1] x [0,1]` and the
restricting predicate "ends in 1", step-level restriction and
filter-after-expansion give different final sets (the chain 0-0-1 survives
the late filter but is pruned early). -/
theorem each_early_late_counterexample :
    reachR binFactors lastOne 2 root0 ≠ (reach binFactors 2 root0).filter lastOne := by
  decide

/-- The "no repeated value" restricting predicate of the concrete scenario. -/
def nodupB (l : List (Option Nat)) : Bool := decide l.Nodup

/-- A chain has no repeated value when the list of its steps has none. -/
def noRepeat (p : Path Nat) : Bool := nodupB p.steps

theorem nodupB_append_singleton (l : List (Option Nat)) (v : Option Nat)
    (h : nodupB (l ++ [v]) = true) : nodupB l = true := by
  unfold nodupB at h ⊢
  exact decide_eq_true (of_decide_eq_true h).of_append_left

theorem steps_add_pos {α : Type} (p : Path α) (v : Option α) (h : 0 < p.length) :
    (p.add v).steps = p.steps ++ [v] := by
  unfold Path.add
  rw [if_pos h]
  rfl

/-- The "no repeated value" predicate is hereditary. -/
theorem noRepeat_hereditary : Hereditary noRepeat := by
  intro q v h
  by_cases hq : 0 < q.length
  · rw [noRepeat, steps_add_pos q v hq] at h
    exact nodupB_append_singleton _ _ h
  · have h0 : q.length = 0 := by omega
    rw [(Path.length_eq_zero_iff q).mp h0]
    rfl

/-- Claim C1 witness: the `[0,1] x [0,1] x [0,1]` scenario with the
"no repeated value" predicate, on the root chain holding 0: step-level
restriction and filter-after-expansion agree. -/
theorem each_early_late_witness :
    noRepeat root0 = true ∧
    reachR binFactors noRepeat 2 root0 = (reach binFactors 2 root0).filter noRepeat :=
  ⟨by decide, each_early_eq_late_filter binFactors noRepeat noRepeat_hereditary root0 (by decide) 2⟩

/-!
Section: Zip: `Each.match` (Each.js lines 323-347 and part_011 lines 407-418)

Two variants of the static binary `Each.match` exist in the sources.  The
variant in `Each.js` advances both iterators and stops only when *every*
iterator is done (`next.every(entry => entry.done)`): past the end of the
shorter side, `it.next().value` is `undefined`, so it keeps yielding pairs
padded with `undefined`.  The variant in `part_011` stops as soon as *some*
iterator is done (`next.some(entry => entry.done)`).
-/

/-- The `Each.js` variant of the binary `Each.match`: runs until both sides
are exhausted, reading `undefined` from the exhausted side. -/
def matchEvery {α β : Type} : List α → List β → List (Option α × Option β)
  | [], [] => []
  | a :: as, [] => (some a, none) :: matchEvery as []
  | [], b :: bs => (none, some b) :: matchEvery [] bs
  | a :: as, b :: bs => (some a, some b) :: matchEvery as bs

/-- The `part_011` variant of the binary `Each.match`: stops at the shorter
side. -/
def matchSome {α β : Type} : List α → List β → List (α × β)
  | a :: as, b :: bs => (a, b) :: matchSome as bs
  | _, _ => []

theorem matchSome_eq_zip {α β : Type} : ∀ (aa : List α) (bb : List β),
    matchSome aa bb = aa.zip bb
  | [], [] => rfl
  | _ :: _, [] => rfl
  | [], _ :: _ => rfl
  | a :: as, b :: bs => by rw [matchSome, matchSome_eq_zip as bs]; rfl

/-- Claim C6: on the repository test input `match([0,1], [2])`, the
`Each.js` variant keeps going past the shorter side and yields the padded
pair `[1, undefined]` (the test in `part_001` expects `[[0,2]]`), while the
`part_011` variant stops at the shorter side; in general the `part_011`
variant yields exactly the positional pairs up to the shorter length. -/
theorem match_stops_at_shorter :
    matchEvery [0, 1] [2] = [(some 0, some 2), (some 1, none)] ∧
    matchSome [0, 1] [2] = [(0, 2)] ∧
    (∀ (aa : List Nat) (bb : List Nat), matchSome aa bb = aa.zip bb) := by
  refine ⟨?_, ?_, fun aa bb => matchSome_eq_zip aa bb⟩
  · simp [matchEvery]
  · simp [matchSome]

/-!
Section: Deep structural equality: `Each.equal` (Each.js lines 205-228)

`Each.equal(aa, bb)` recurses elementwise when both arguments are
non-string iterables, and otherwise falls back to JavaScript `===`.
Values are modelled by `JVal`: strings, numbers, `undefined`, and arrays
(the iterables); `===` on the non-both-array cases is constructor-wise
value equality (two distinct arrays are never `===`, but that branch is
unreachable: both-array pairs recurse).
-/

/-- A JavaScript value as compared by `Each.equal`. -/
inductive JVal where
  | str (s : String)
  | num (n : Int)
  | undef
  | arr (elems : List JVal)

mutual

/-- Model of `Each.equal(aa, bb)`: recurse when both are non-string iterables, else
compare with `===`. -/
def jeq : JVal → JVal → Bool
  | .arr as, .arr bs => jeqList as bs
  | .str a, .str b => a == b
  | .num a, .num b => a == b
  | .undef, .undef => true
  | _, _ => false

/-- The iterator loop of `Each.equal`: both `next()` results done means
equal; one done and not the other means unequal; otherwise compare the
values recursively and continue. -/
def jeqList : List JVal → List JVal → Bool
  | [], [] => true
  | _ :: _, [] => false
  | [], _ :: _ => false
  | a :: as, b :: bs => jeq a b && jeqList as bs

end

mutual

theorem jeq_refl : ∀ a : JVal, jeq a a = true
  | .str s => by simp [jeq]
  | .num n => by simp [jeq]
  | .undef => by simp [jeq]
  | .arr l => by rw [jeq]; exact jeqList_refl l

theorem jeqList_refl : ∀ l : List JVal, jeqList l l = true
  | [] => by rw [jeqList]
  | a :: as => by rw [jeqList, jeq_refl a, jeqList_refl as]; rfl

end

mutual

theorem jeq_symm : ∀ a b : JVal, jeq a b = jeq b a
  | .str _, .str _ => by simp [jeq, eq_comm]
  | .num _, .num _ => by simp [jeq, eq_comm]
  | .undef, .undef => rfl
  | .arr as, .arr bs => by rw [jeq, jeq]; exact jeqList_symm as bs
  | .str _, .num _ => by simp [jeq]
  | .str _, .undef => by simp [jeq]
  | .str _, .arr _ => by simp [jeq]
  | .num _, .str _ => by simp [jeq]
  | .num _, .undef => by simp [jeq]
  | .num _, .arr _ => by simp [jeq]
  | .undef, .str _ => by simp [jeq]
  | .undef, .num _ => by simp [jeq]
  | .undef, .arr _ => by simp [jeq]
  | .arr _, .str _ => by simp [jeq]
  | .arr _, .num _ => by simp [jeq]
  | .arr _, .undef => by simp [jeq]

theorem jeqList_symm : ∀ as bs : List JVal, jeqList as bs = jeqList bs as
  | [], [] => rfl
  | _ :: _, [] => by simp [jeqList]
  | [], _ :: _ => by simp [jeqList]
  | a :: as, b :: bs => by rw [jeqList, jeqList, jeq_symm a b, jeqList_symm as bs]

end

/-- Claim C9: `Each.equal` is reflexive and symmetric on all (finite)
values; text values are atomic (a string is never equal to an iterable,
character-by-character or otherwise); nested iterables compare recursively,
so `equal([[1,2],[3]], [[1,2],[3]])` holds and `equal([[1,2]], [[1,3]])`
fails. -/
theorem each_equal_refl_symm_atomic :
    (∀ a : JVal, jeq a a = true) ∧
    (∀ a b : JVal, jeq a b = jeq b a) ∧
    (∀ (s : String) (l : List JVal), jeq (.str s) (.arr l) = false) ∧
    jeq (.arr [.arr [.num 1, .num 2], .arr [.num 3]])
      (.arr [.arr [.num 1, .num 2], .arr [.num 3]]) = true ∧
    jeq (.arr [.arr [.num 1, .num 2]]) (.arr [.arr [.num 1, .num 3]]) = false := by
  refine ⟨jeq_refl, jeq_symm, fun s l => by simp [jeq], ?_, ?_⟩
  · simp [jeq, jeqList]
  · simp [jeq, jeqList]

/-!
Section: restrict-input: `What.if` and `AsyncWhat.if`

The synchronous static `What.if(f, p)` (What.js lines 110-112) evaluates
`f` when the predicate is truthy and otherwise returns `undefined`; it has
no failure-error parameter.  The asynchronous static
`AsyncWhat.if(predicate, f, error = undefined)` (AsyncWhat.js lines
102-107) runs `if (await predicate(...args)) return await f(...args);
throw error;` - so when the predicate fails and no error was supplied it
executes `throw undefined`, rejecting the promise with reason `undefined`.
-/

/-- Model of `What.if(f, p)`: truthy predicate gates evaluation; otherwise the
result is `undefined`. -/
def whatIf {γ V : Type} (f : γ → Option V) (p : γ → Bool) (arg : γ) : Option V :=
  if p arg then f arg else none

/-- Model of `AsyncWhat.if(predicate, f, error)`: truthy predicate gates evaluation;
otherwise `throw error` (a rejection, also when `error` is `undefined`). -/
def asyncIf {γ V : Type} (p : γ → Bool) (f : γ → Except (Option JsError) (Option V))
    (error : Option JsError) (args : γ) : Except (Option JsError) (Option V) :=
  if p args then f args else .error error

/-- Claim C5 counterexample: with a failing predicate and no onFail error,
the asynchronous `if` rejects with reason `undefined` instead of resolving
to the absent value. -/
theorem asyncIf_no_error_rejects :
    asyncIf (fun _ : Nat => false) (fun _ => Except.ok (some 1)) none 0 = Except.error none ∧
    (Except.error none : Except (Option JsError) (Option Nat)) ≠ Except.ok none := by
  exact ⟨rfl, by simp⟩

/-- Claim C5 (amended): when the predicate holds, both combinators evaluate
the wrapped function on the original arguments.  When it fails, the
synchronous `if` returns absent (it accepts no onFail error at all), while
the asynchronous `if` always raises: the supplied onFail error when one was
given, and an absent (`undefined`) rejection reason otherwise. -/
theorem restrict_input_spec {γ V : Type} (f : γ → Option V)
    (fa : γ → Except (Option JsError) (Option V)) (p : γ → Bool)
    (error : Option JsError) (args : γ) :
    (p args = true → whatIf f p args = f args) ∧
    (p args = false → whatIf f p args = none) ∧
    (p args = true → asyncIf p fa error args = fa args) ∧
    (p args = false → asyncIf p fa error args = .error error) := by
  refine ⟨fun h => ?_, fun h => ?_, fun h => ?_, fun h => ?_⟩ <;>
    simp [whatIf, asyncIf, h]

/-- Claim C5 witness: concrete passing and failing predicates. -/
theorem restrict_input_spec_witness :
    whatIf (fun n : Nat => some (n * 2)) (fun n => decide (0 < n)) 3 = some 6 ∧
    whatIf (fun n : Nat => some (n * 2)) (fun n => decide (0 < n)) 0 = none ∧
    asyncIf (fun n : Nat => decide (0 < n)) (fun n => Except.ok (some (n * 2)))
      (some (plainError ("too small"))) 0 = Except.error (some (plainError ("too small"))) := by
  refine ⟨?_, ?_, ?_⟩
  · rw [(restrict_input_spec (fun n : Nat => some (n * 2))
      (fun n => Except.ok (some (n * 2))) (fun n => decide (0 < n)) none 3).1 (by decide)]
  · rw [(restrict_input_spec (fun n : Nat => some (n * 2))
      (fun n => Except.ok (some (n * 2))) (fun n => decide (0 < n)) none 0).2.1 (by decide)]
  · rw [(restrict_input_spec (fun n : Nat => some (n * 2))
      (fun n => Except.ok (some (n * 2))) (fun n => decide (0 < n))
      (some (plainError ("too small"))) 0).2.2.2 (by decide)]

/-!
Section: fallback: `What#else` and `AsyncWhat#else`

The synchronous instance `else(f, errStringOrRegex)` (What.js lines
539-562) catches an error thrown by the primary and calls the fallback with
the error appended only when the message equals the matcher string or the
RegExp tests true against it; with no matcher supplied both guards are
falsy and the error is re-thrown.  An `undefined` primary result always
invokes the fallback on the original arguments.  The asynchronous instance
`else(f, matcher)` (AsyncWhat.js lines 157-179) instead treats an absent
matcher as matching every error (`!matcher || Errors.matches(err,
matcher)`), and classifies via `Errors.matches` (Errors.js): a number
matches `statusCode`, a string matches the error class name, a RegExp tests
the message, a function is a custom predicate, and a `null` error matches
nothing.
-/

/-- A matcher accepted by the synchronous `else`: a message string or a
RegExp (modelled as a test on the message). -/
inductive SyncMatcher where
  | str (s : String)
  | regex (test : String → Bool)

/-- The guard `(errMsg && errMsg === msg) || (regex && regex.test(msg))`
of the synchronous `else` (an empty matcher string is falsy). -/
def syncElseMatches (m : Option SyncMatcher) (msg : String) : Bool :=
  match m with
  | some (.str s) => (!(s == "")) && s == msg
  | some (.regex t) => t msg
  | none => false

/-- Model of `What#else(f, errStringOrRegex)` around a primary evaluation; the
fallback receives the caught error appended (`some err`) or nothing
(`none`) when the primary merely returned `undefined`. -/
def whatElse {γ V : Type} (prim : γ → Except JsError (Option V))
    (alt : γ → Option JsError → Except JsError (Option V))
    (m : Option SyncMatcher) (args : γ) : Except JsError (Option V) :=
  match prim args with
  | .error err =>
    if syncElseMatches m err.message then alt args (some err) else .error err
  | .ok none => alt args none
  | .ok (some v) => .ok (some v)

/-- A matcher accepted by `Errors.matches`. -/
inductive ErrMatcher where
  | status (n : Nat)
  | name (s : String)
  | pred (p : JsError → Bool)
  | regex (t : String → Bool)

/-- Model of `Errors.matches(err, matcher)`; a `null`/`undefined` error matches
nothing. -/
def errorsMatches (err : Option JsError) (m : ErrMatcher) : Bool :=
  match err with
  | none => false
  | some e =>
    match m with
    | .status n => e.statusCode == some n
    | .name s => e.name == s
    | .pred p => p e
    | .regex t => t e.message

/-- Model of `AsyncWhat#else(f, matcher)` around a primary evaluation; the fallback
receives the caught rejection reason appended (`some err`, where the reason
itself may be `undefined`) or nothing (`none`) when the primary resolved to
`undefined`. -/
def asyncElse {γ V : Type} (prim : γ → Except (Option JsError) (Option V))
    (alt : γ → Option (Option JsError) → Except (Option JsError) (Option V))
    (m : Option ErrMatcher) (args : γ) : Except (Option JsError) (Option V) :=
  match prim args with
  | .error err =>
    match m with
    | none => alt args (some err)
    | some mm => if errorsMatches err mm then alt args (some err) else .error err
  | .ok none => alt args none
  | .ok (some v) => .ok (some v)

/-- Concrete primary and fallback functions used to exercise the fallback
combinators. -/
def cexPrimS : Nat → Except JsError (Option Nat) :=
  fun _ => Except.error (plainError ("boom"))

/-- Concrete synchronous fallback returning 42. -/
def cexAltS : Nat → Option JsError → Except JsError (Option Nat) :=
  fun _ _ => Except.ok (some 42)

/-- Concrete asynchronous primary rejecting with an error. -/
def cexPrimA : Nat → Except (Option JsError) (Option Nat) :=
  fun _ => Except.error (some (plainError ("boom")))

/-- Concrete asynchronous fallback returning 42. -/
def cexAltA : Nat → Option (Option JsError) → Except (Option JsError) (Option Nat) :=
  fun _ _ => Except.ok (some 42)

/-- Claim C4 counterexample: with no matcher supplied and a throwing
primary, the synchronous `else` re-raises the error instead of invoking
the fallback, while the asynchronous `else` invokes the fallback - so the
claimed common behaviour fails on the synchronous combinator. -/
theorem sync_else_no_matcher_rethrows :
    whatElse cexPrimS cexAltS none 0 = Except.error (plainError ("boom")) ∧
    whatElse cexPrimS cexAltS none 0 ≠ Except.ok (some 42) ∧
    asyncElse cexPrimA cexAltA none 0 = Except.ok (some 42) := by
  have h1 : whatElse cexPrimS cexAltS none 0 = Except.error (plainError ("boom")) := rfl
  refine ⟨h1, ?_, rfl⟩
  rw [h1]
  exact fun hcontra => Except.noConfusion hcontra

/-- Claim C4 (amended): a defined primary result is propagated; an absent
primary result invokes the alternate on the original arguments; a thrown
error invokes the alternate with the error appended when it matches the
supplied matcher and is re-raised unchanged when it does not; with no
matcher supplied the two combinators differ: the asynchronous `else`
treats every error as matching, the synchronous `else` re-raises every
error. -/
theorem fallback_spec {γ V : Type} (prim : γ → Except JsError (Option V))
    (alt : γ → Option JsError → Except JsError (Option V))
    (aprim : γ → Except (Option JsError) (Option V))
    (aalt : γ → Option (Option JsError) → Except (Option JsError) (Option V))
    (m : Option SyncMatcher) (am : ErrMatcher) (args : γ) :
    (∀ v, prim args = .ok (some v) → whatElse prim alt m args = .ok (some v)) ∧
    (prim args = .ok none → whatElse prim alt m args = alt args none) ∧
    (∀ e, prim args = .error e → syncElseMatches m e.message = true →
      whatElse prim alt m args = alt args (some e)) ∧
    (∀ e, prim args = .error e → syncElseMatches m e.message = false →
      whatElse prim alt m args = .error e) ∧
    (∀ e, prim args = .error e → whatElse prim alt none args = .error e) ∧
    (∀ v, aprim args = .ok (some v) → asyncElse aprim aalt (some am) args = .ok (some v)) ∧
    (aprim args = .ok none → asyncElse aprim aalt (some am) args = aalt args none) ∧
    (∀ e, aprim args = .error e → errorsMatches e am = true →
      asyncElse aprim aalt (some am) args = aalt args (some e)) ∧
    (∀ e, aprim args = .error e → errorsMatches e am = false →
      asyncElse aprim aalt (some am) args = .error e) ∧
    (∀ e, aprim args = .error e → asyncElse aprim aalt none args = aalt args (some e)) := by
  refine ⟨fun v h => by simp [whatElse, h], fun h => by simp [whatElse, h],
    fun e h hm => by simp [whatElse, h, hm],
    fun e h hm => by simp [whatElse, h, hm],
    fun e h => by simp [whatElse, h, syncElseMatches],
    fun v h => by simp [asyncElse, h],
    fun h => by simp [asyncElse, h],
    fun e h hm => by simp [asyncElse, h, hm],
    fun e h hm => by simp [asyncElse, h, hm],
    fun e h => by simp [asyncElse, h]⟩

/-- Claim C4 witness: concrete fallback scenarios - absent result, matching
error with the error appended, non-matching error re-raised. -/
theorem fallback_spec_witness :
    whatElse (fun _ : Nat => Except.ok none) cexAltS none 1 = cexAltS 1 none ∧
    whatElse cexPrimS cexAltS (some (.str ("boom"))) 0 = cexAltS 0 (some (plainError ("boom"))) ∧
    whatElse cexPrimS cexAltS (some (.str ("other"))) 0 = Except.error (plainError ("boom")) ∧
    asyncElse cexPrimA cexAltA (some (.name ("Error"))) 0
      = cexAltA 0 (some (some (plainError ("boom")))) := by
  refine ⟨?_, ?_, ?_, ?_⟩
  · exact (fallback_spec (fun _ : Nat => Except.ok none) cexAltS cexPrimA cexAltA
      none (.name ("Error")) 1).2.1 rfl
  · exact (fallback_spec cexPrimS cexAltS cexPrimA cexAltA
      (some (.str ("boom"))) (.name ("Error")) 0).2.2.1 _ rfl (by decide)
  · exact (fallback_spec cexPrimS cexAltS cexPrimA cexAltA
      (some (.str ("other"))) (.name ("Error")) 0).2.2.2.1 _ rfl (by decide)
  · exact (fallback_spec cexPrimS cexAltS cexPrimA cexAltA
      none (.name ("Error")) 0).2.2.2.2.2.2.2.1 _ rfl (by decide)

/-!
Section: `AsyncWhat.within` (AsyncWhat.js lines 563-579)

`within(timeoutMs, fn, error = new TimeoutError(...))` races `fn(ctx)`
against a `setTimeout(timeoutMs)` timer via `Promise.race`.  A pending
evaluation is modelled by its settlement time and outcome: the race
propagates the outcome unchanged when it settles before the timer fires,
and rejects with the error otherwise.  The default error is
`new TimeoutError(`Operation timed out after ${timeoutMs}ms`)`: the
formatted message string is passed as the FIRST constructor argument,
which is the `millis` slot, leaving `message` at its default.
-/

/-- The default rejection error built by `within`. -/
def timeoutDefaultError (ms : Nat) : JsError :=
  mkTimeoutError (.str ("Operation timed out after " ++ toString ms ++ "ms"))

/-- Model of `AsyncWhat.within(timeoutMs, fn, error)` applied to an evaluation that
settles at time `comp.1` with outcome `comp.2`. -/
def within {V : Type} (timeoutMs : Nat) (comp : Nat × Except (Option JsError) V)
    (error : JsError := timeoutDefaultError timeoutMs) : Except (Option JsError) V :=
  if comp.1 < timeoutMs then comp.2 else .error (some error)

/-- Claim C8: on an evaluation that does not settle within the budget,
`within(100, fn)` rejects with a `TimeoutError` (a distinct class), but the
error carries the formatted message string in its `millis` slot - not the
numeric budget 100 that the `TimeoutError(millis, message, cause)`
constructor is documented to carry there - while its `message` stays at
the default; an evaluation settling in time is propagated unchanged. -/
theorem within_timeout_fields :
    within 100 ((200 : Nat), (Except.ok (some 1) : Except (Option JsError) (Option Nat)))
      = Except.error (some (timeoutDefaultError 100)) ∧
    (timeoutDefaultError 100).name = "TimeoutError" ∧
    (timeoutDefaultError 100).message = "Operation timed out" ∧
    (timeoutDefaultError 100).millis = some (.str ("Operation timed out after 100ms")) ∧
    (timeoutDefaultError 100).millis ≠ some (.num 100) ∧
    within 100 ((50 : Nat), (Except.ok (some 1) : Except (Option JsError) (Option Nat)))
      = Except.ok (some 1) ∧
    within 100 ((50 : Nat),
        (Except.error (some (plainError ("bad"))) : Except (Option JsError) (Option Nat)))
      = Except.error (some (plainError ("bad"))) := by
  refine ⟨rfl, rfl, rfl, by decide, by decide, rfl, rfl⟩

/-!
Section: `AsyncWhat.retry` (AsyncWhat.js lines 603-646)

`retry(f, ntimes, baseDelay, factor, maxDelay)` runs `tryOnce`:

* at entry, if `stopped` it rejects with `new Error("Retry stopped by user")`;
* otherwise it awaits `f(ctx)` and resolves on success;
* on failure it stores the error, increments `attemptIndex`, and when
  `attemptIndex < ntimes && !stopped` schedules the next `tryOnce` via
  `setTimeout` with `delay = min(baseDelay * factor ** (attemptIndex - 1),
  maxDelay)`; otherwise it rejects with the stop error when stopped and
  with the last error otherwise.

The model runs the loop with `i` for `attemptIndex` at entry and `r` for
the remaining attempt budget (`ntimes - i`; the reschedule guard
`attemptIndex < ntimes` is `2 ≤ r`).  The mutable `stopped` flag is
modelled by the values it shows at each read: read `2*i` at the entry of
attempt `i`, read `2*i + 1` at its failure branch.  The output records the
settlement, the number of invocations of `f`, and the list of backoff
delays in scheduling order.
-/

/-- The stop rejection of `retry`: a plain `Error`, not a dedicated class. -/
def retryStopError : JsError := plainError ("Retry stopped by user")

instance {eps alpha : Type} [DecidableEq eps] [DecidableEq alpha] :
    DecidableEq (Except eps alpha) := fun x y =>
  match x, y with
  | .ok a, .ok b =>
    if h : a = b then .isTrue (by rw [h]) else .isFalse (by simp [h])
  | .error e, .error e2 =>
    if h : e = e2 then .isTrue (by rw [h]) else .isFalse (by simp [h])
  | .ok _, .error _ => .isFalse (fun hc => Except.noConfusion hc)
  | .error _, .ok _ => .isFalse (fun hc => Except.noConfusion hc)

/-- Observable outcome of a retry loop: settlement, number of invocations
of the wrapped function, and the backoff delays used. -/
structure RetryOut (V : Type) where
  result : Except JsError V
  calls : Nat
  delays : List Nat
deriving DecidableEq

/-- The terminal form of `tryOnce` (no rescheduling possible,
`attemptIndex ≥ ntimes - 1` on failure). -/
def retryLast {V : Type} (f : Nat → Except JsError V) (poll : Nat → Bool)
    (i : Nat) : RetryOut V :=
  if poll (2 * i) then ⟨.error retryStopError, 0, []⟩
  else
    match f i with
    | .ok v => ⟨.ok v, 1, []⟩
    | .error e =>
      if poll (2 * i + 1) then ⟨.error retryStopError, 1, []⟩
      else ⟨.error e, 1, []⟩

/-- The `tryOnce` loop of `retry`, with remaining budget `r` and attempt
index `i`. -/
def retryAux {V : Type} (f : Nat → Except JsError V) (poll : Nat → Bool)
    (base factor maxDelay : Nat) : Nat → Nat → RetryOut V
  | 0, i => retryLast f poll i
  | 1, i => retryLast f poll i
  | r0 + 2, i =>
    if poll (2 * i) then ⟨.error retryStopError, 0, []⟩
    else
      match f i with
      | .ok v => ⟨.ok v, 1, []⟩
      | .error _ =>
        if poll (2 * i + 1) then ⟨.error retryStopError, 1, []⟩
        else
          let rest := retryAux f poll base factor maxDelay (r0 + 1) (i + 1)
          ⟨rest.result, rest.calls + 1, min (base * factor ^ i) maxDelay :: rest.delays⟩

/-- Model of `AsyncWhat.retry(f, ntimes, baseDelay, factor, maxDelay)` started on a
context: the loop begins at attempt 0 with the full budget. -/
def retry {V : Type} (f : Nat → Except JsError V) (poll : Nat → Bool)
    (ntimes base factor maxDelay : Nat) : RetryOut V :=
  retryAux f poll base factor maxDelay ntimes 0

theorem range_succ_delays (base factor maxDelay i k : Nat) :
    (List.range (k + 1)).map (fun j => min (base * factor ^ (i + j)) maxDelay)
      = min (base * factor ^ i) maxDelay ::
        (List.range k).map (fun j => min (base * factor ^ (i + 1 + j)) maxDelay) := by
  rw [List.range_succ_eq_map, List.map_cons, List.map_map]
  have hhead : i + 0 = i := by omega
  rw [hhead]
  have htail : ∀ a ∈ List.range k,
      ((fun j => min (base * factor ^ (i + j)) maxDelay) ∘ Nat.succ) a
        = (fun j => min (base * factor ^ (i + 1 + j)) maxDelay) a := by
    intro a _
    show min (base * factor ^ (i + (a + 1))) maxDelay = min (base * factor ^ (i + 1 + a)) maxDelay
    have : i + (a + 1) = i + 1 + a := by omega
    rw [this]
  rw [List.map_congr_left htail]

theorem retryAux_ok {V : Type} (f : Nat → Except JsError V) (e : Nat → JsError) (v : V)
    (base factor maxDelay : Nat) :
    ∀ (k i r : Nat), (∀ j, j < k → f (i + j) = .error (e (i + j))) → f (i + k) = .ok v →
      k < r →
      retryAux f (fun _ => false) base factor maxDelay r i =
        ⟨.ok v, k + 1, (List.range k).map (fun j => min (base * factor ^ (i + j)) maxDelay)⟩ := by
  intro k
  induction k with
  | zero =>
    intro i r hfail hsucc hr
    have hfi : f i = .ok v := by simpa using hsucc
    match r, hr with
    | 1, _ => simp [retryAux, retryLast, hfi]
    | r0 + 2, _ => simp [retryAux, hfi]
  | succ k ih =>
    intro i r hfail hsucc hr
    have hfi : f i = .error (e i) := by simpa using hfail 0 (by omega)
    match r, hr with
    | r0 + 2, _ =>
      have hrest := ih (i + 1) (r0 + 1)
        (fun j hj => by
          have h0 := hfail (j + 1) (by omega)
          have hij : i + (j + 1) = i + 1 + j := by omega
          rwa [hij] at h0)
        (by
          have hik : i + (k + 1) = i + 1 + k := by omega
          rwa [hik] at hsucc)
        (by omega)
      simp [retryAux, hfi, hrest, range_succ_delays]

theorem retryAux_allfail {V : Type} (f : Nat → Except JsError V) (e : Nat → JsError)
    (base factor maxDelay : Nat) :
    ∀ (r i : Nat), 0 < r → (∀ j, j < i + r → f j = .error (e j)) →
      (retryAux f (fun _ => false) base factor maxDelay r i).result = .error (e (i + r - 1)) := by
  intro r
  induction r with
  | zero => intro i h; omega
  | succ r0 ih =>
    intro i hpos hfail
    have hfi : f i = .error (e i) := hfail i (by omega)
    rcases r0 with _ | r1
    · simp [retryAux, retryLast, hfi]
    · have hrest := ih (i + 1) (by omega) (fun j hj => hfail j (by omega))
      have hidx : i + 1 + (r1 + 1) - 1 = i + (r1 + 1 + 1) - 1 := by omega
      rw [hidx] at hrest
      simp [retryAux, hfi, hrest]

/-- Claim C2: for a function failing its first `k` invocations and
succeeding on invocation `k + 1`, with `maxAttempts > k` and the flag never
set, the retry wrapper re-invokes on each failure with backoff delay
`min(baseDelay * factor ^ (attempt - 1), maxDelay)` (attempts counted from
1), invokes the function exactly `k + 1` times, and resolves with the
successful result; and for a function failing on every allowed attempt, the
wrapper rejects with the last observed error itself, not a wrapper around
it. -/
theorem retry_backoff_spec {V : Type} (f : Nat → Except JsError V) (e : Nat → JsError)
    (v : V) (k ntimes base factor maxDelay : Nat) :
    ((∀ i, i < k → f i = .error (e i)) → f k = .ok v → k < ntimes →
      retry f (fun _ => false) ntimes base factor maxDelay =
        ⟨.ok v, k + 1, (List.range k).map (fun j => min (base * factor ^ j) maxDelay)⟩) ∧
    ((∀ i, i < ntimes → f i = .error (e i)) → 0 < ntimes →
      (retry f (fun _ => false) ntimes base factor maxDelay).result = .error (e (ntimes - 1))) := by
  constructor
  · intro hfail hsucc hk
    have h := retryAux_ok f e v base factor maxDelay k 0 ntimes
      (fun j hj => by simpa using hfail j hj) (by simpa using hsucc) hk
    simpa [retry] using h
  · intro hfail hpos
    have h := retryAux_allfail f e base factor maxDelay ntimes 0 hpos
      (fun j hj => hfail j (by omega))
    simpa [retry] using h

/-- A function that fails twice and then succeeds with 7. -/
def failTwice : Nat → Except JsError Nat :=
  fun i => if i < 2 then Except.error (plainError ("fail")) else Except.ok 7

/-- Claim C2 witness: `failTwice` under `retry(4, 10, 2, 1000)` is invoked
3 times, backs off by 10 then 20, and resolves with 7. -/
theorem retry_backoff_spec_witness :
    retry failTwice (fun _ => false) 4 10 2 1000 = ⟨Except.ok 7, 3, [10, 20]⟩ := by
  have h := (retry_backoff_spec failTwice (fun _ => plainError ("fail")) 7 2 4 10 2 1000).1
    (fun i hi => by simp [failTwice, hi]) (by simp [failTwice]) (by omega)
  rw [h]
  decide

/-- Claim C3 (amended): once the stopped flag reads true, the next
scheduling checkpoint rejects the pending result with the plain
`Error("Retry stopped by user")` - there is no dedicated `StopError` class
in the sources - and the wrapped function is never invoked again: a stop
seen at the entry checkpoint of an attempt means zero invocations from that
point on, and a stop seen at the post-failure checkpoint means none beyond
the invocation that had already run. -/
theorem retry_stop_spec {V : Type} (f : Nat → Except JsError V) (poll : Nat → Bool)
    (base factor maxDelay r i : Nat) :
    (poll (2 * i) = true →
      retryAux f poll base factor maxDelay r i = ⟨.error retryStopError, 0, []⟩) ∧
    (∀ e, poll (2 * i) = false → f i = .error e → poll (2 * i + 1) = true →
      retryAux f poll base factor maxDelay r i = ⟨.error retryStopError, 1, []⟩) ∧
    retryStopError.name = "Error" ∧
    retryStopError.message = "Retry stopped by user" := by
  refine ⟨fun h => ?_, fun e h1 h2 h3 => ?_, rfl, rfl⟩
  · rcases r with _ | _ | r0 <;> simp [retryAux, retryLast, h]
  · rcases r with _ | _ | r0 <;> simp [retryAux, retryLast, h1, h2, h3]

/-- Claim C3 counterexample: the stop rejection is a plain `Error` whose
class name is "Error" - `Errors.matches` classifies by `constructor.name`,
and no value of class name "StopError" is ever produced. -/
theorem retry_stop_not_stoperror :
    (retry (fun _ => Except.ok 0) (fun _ => true) 5 1 1 1).result
      = Except.error retryStopError ∧
    retryStopError.name = "Error" ∧
    retryStopError.name ≠ "StopError" := by
  refine ⟨rfl, rfl, by decide⟩

/-- Claim C3 witness: a flag that turns true right after the first failed
invocation stops the loop at the post-failure checkpoint, with exactly the
one invocation that was already running. -/
theorem retry_stop_spec_witness :
    retryAux (fun _ => (Except.error (plainError ("boom")) : Except JsError Nat))
      (fun c => decide (1 ≤ c)) 1 1 1 4 0 = ⟨Except.error retryStopError, 1, []⟩ :=
  (retry_stop_spec (fun _ => (Except.error (plainError ("boom")) : Except JsError Nat))
    (fun c => decide (1 ≤ c)) 1 1 1 4 0).2.1 (plainError ("boom")) (by decide) rfl (by decide)

end Fluent
